import Mathlib

/-!
Verification development for the polymarket-trader repository.

Shallow embedding over ℚ of the components the claims concern:
  * `src/utils/take_profit_calculator.py` — `calculate_take_profit`,
    `check_take_profit_hit`;
  * `src/strategies/adaptive_kelly.py` — `AdaptiveKelly.calculate_position_size`;
  * `src/models/price_predictor.py` — the three price predictors;
  * `src/models/edge_estimator.py` — `EnsembleEdgeEstimator`;
  * `src/capital_recycling_simulation.py` — `simulate_capital_recycling`.

Modelling conventions:
  * Python floats become exact rationals (ℚ).  `round(x, 4)` becomes
    `pyRound4` (decimal round-half-to-even, Python's rounding mode).
  * Python exceptions become `Except String`.
  * Transcendental float operations (`np.exp`, `np.sqrt` inside `np.std`)
    are passed in as explicit function parameters; theorems quantify over
    them (using only the properties the code relies on, e.g. positivity
    of `exp`).
  * The draw `np.random.normal(0, 0.02)` inside `_sentiment_predict` is
    passed in as an explicit `noise` parameter.
-/

/-- `np.clip(x, lo, hi) = min(max(x, lo), hi)`. -/
def npClip (x lo hi : ℚ) : ℚ := min (max x lo) hi

/-- Round-half-to-even of a rational to an integer (Python's rounding mode). -/
def roundHalfEven (q : ℚ) : ℤ :=
  let f : ℤ := ⌊q⌋
  let r : ℚ := q - f
  if r < 1/2 then f
  else if 1/2 < r then f + 1
  else if f % 2 = 0 then f else f + 1

/-- Python `round(x, 4)`: round to 4 decimal places, half to even. -/
def pyRound4 (q : ℚ) : ℚ := (roundHalfEven (q * 10000) : ℚ) / 10000

/-- Last `n` elements of a list (Python `lst[-n:]`). -/
def takeLast (n : ℕ) (l : List ℚ) : List ℚ := l.drop (l.length - n)

/-- `np.mean` (0 on the empty list; the code never hits that case where it matters). -/
def listMean (l : List ℚ) : ℚ := l.sum / l.length

/-- `np.var`: population variance, mean of squared deviations. -/
def listVar (l : List ℚ) : ℚ :=
  ((l.map (fun x => (x - listMean l) ^ 2)).sum) / l.length

/-- `np.sign`. -/
def qSign (q : ℚ) : ℚ := if q < 0 then -1 else if 0 < q then 1 else 0

/-- Python `abs` (an if-based definition so concrete runs evaluate by `norm_num`;
`qAbs_eq_abs` identifies it with `|·|`). -/
def qAbs (q : ℚ) : ℚ := if q < 0 then -q else q

/-! ## `src/utils/take_profit_calculator.py` -/

/-- `TakeProfitLevel` dataclass (`take_profit_calculator.py`, lines 13-23). -/
structure TakeProfitLevel where
  target_price : ℚ
  target_pct_move : ℚ
  captured_edge : ℚ
  is_reachable : Bool
  edge_capture_ratio : ℚ
  initial_edge : ℚ
  entry_price : ℚ
  side : String
deriving Repr, DecidableEq

/-- `calculate_take_profit` (`take_profit_calculator.py`, lines 26-119).
`ValueError` is modelled as `Except.error`; `None` as `Except.ok none`.
Python defaults: `edge_capture_ratio=0.5`, `min_edge_threshold=0.05`,
`min_price=0.01`, `max_price=0.99` (callers in this file pass them
explicitly). -/
def calculate_take_profit (entry_price estimated_prob : ℚ) (side : String)
    (edge_capture_ratio min_edge_threshold min_price max_price : ℚ) :
    Except String (Option TakeProfitLevel) :=
  if ¬ (side = "YES" ∨ side = "NO") then
    .error "Side must be YES or NO"
  else if ¬ (0 ≤ entry_price ∧ entry_price ≤ 1) then
    .error "Entry price must be between 0 and 1"
  else if ¬ (0 ≤ estimated_prob ∧ estimated_prob ≤ 1) then
    .error "Estimated prob must be between 0 and 1"
  else
    let initial_edge :=
      if side = "YES" then estimated_prob - entry_price
      else (1 - estimated_prob) - (1 - entry_price)
    if qAbs initial_edge < min_edge_threshold then .ok none
    else if entry_price > 0.90 ∨ entry_price < 0.10 then .ok none
    else
      let tp_pct :=
        if side = "YES" then
          (qAbs initial_edge * edge_capture_ratio) / entry_price
        else
          (qAbs initial_edge * edge_capture_ratio) / (1 - entry_price)
      let target_price :=
        if side = "YES" then
          entry_price + entry_price * tp_pct
        else
          1 - ((1 - entry_price) - (1 - entry_price) * tp_pct)
      let is_reachable := decide (min_price ≤ target_price ∧ target_price ≤ max_price)
      let captured_edge :=
        if side = "YES" then target_price - entry_price
        else entry_price - target_price
      .ok (some
        { target_price := pyRound4 target_price
          target_pct_move := pyRound4 tp_pct
          captured_edge := pyRound4 captured_edge
          is_reachable := is_reachable
          edge_capture_ratio := edge_capture_ratio
          initial_edge := pyRound4 initial_edge
          entry_price := entry_price
          side := side })

/-- The edge `calculate_take_profit` computes for a side (lines 74-80). -/
def initialEdgeOf (side : String) (entry_price estimated_prob : ℚ) : ℚ :=
  if side = "YES" then estimated_prob - entry_price
  else (1 - estimated_prob) - (1 - entry_price)

/-- `check_take_profit_hit` (`take_profit_calculator.py`, lines 122-150).
The `entry_price` argument is accepted but never read, exactly as in the
source. -/
def check_take_profit_hit (entry_price current_price : ℚ)
    (tp_level : TakeProfitLevel) (side : String) : Bool :=
  if side = "YES" then decide (current_price ≥ tp_level.target_price)
  else decide (current_price ≤ tp_level.target_price)

/-! ## `src/strategies/adaptive_kelly.py` -/

/-- `KellyResult` dataclass (`adaptive_kelly.py`, lines 14-26).  The two
string-report fields `rationale` and `recommendations` are formatting only
and are not modelled. -/
structure KellyResult where
  side : String
  kelly_fraction : ℚ
  adjusted_fraction : ℚ
  position_size : ℚ
  shares : ℚ
  confidence_adjustment : ℚ
  correlation_penalty : ℚ
  drawdown_penalty : ℚ
deriving Repr, DecidableEq

/-- `AdaptiveKelly.__init__` parameters (`adaptive_kelly.py`, lines 41-53). -/
structure AdaptiveKellyParams where
  base_fraction : ℚ
  max_fraction : ℚ
  min_fraction : ℚ
  max_drawdown_limit : ℚ
  max_correlated_exposure : ℚ
deriving Repr, DecidableEq

/-- Python constructor defaults for `AdaptiveKelly`. -/
def defaultKellyParams : AdaptiveKellyParams :=
  { base_fraction := 0.25
    max_fraction := 0.50
    min_fraction := 0.05
    max_drawdown_limit := 0.20
    max_correlated_exposure := 0.30 }

/-- The drawdown adjustment of `calculate_position_size`
(`adaptive_kelly.py`, lines 123-133). -/
def drawdownPenalty (current_drawdown max_drawdown_limit : ℚ) : ℚ :=
  if current_drawdown ≥ max_drawdown_limit then 0
  else if current_drawdown > max_drawdown_limit * 0.5 then
    1 - current_drawdown / max_drawdown_limit
  else 1

/-- `AdaptiveKelly.calculate_position_size` (`adaptive_kelly.py`,
lines 58-189).  `dynamic_kelly` stands for the value of
`self._get_dynamic_kelly_fraction()` (lines 191-202), which reads the
persisted `PredictionTracker` state; with no resolved prediction on file it
equals `base_fraction` (0.25), and it is passed here as an explicit argument.
Python guards each division by a positivity test; the same tests appear
here. -/
def calculate_position_size (P : AdaptiveKellyParams) (dynamic_kelly : ℚ)
    (bankroll market_price estimated_prob confidence correlated_exposure
     current_drawdown : ℚ) : KellyResult :=
  let side := if estimated_prob > market_price then "YES" else "NO"
  let b :=
    if estimated_prob > market_price then
      if market_price > 0 then (1 - market_price) / market_price else 0
    else
      if 1 - market_price > 0 then
        (1 - (1 - market_price)) / (1 - market_price)
      else 0
  let p := if estimated_prob > market_price then estimated_prob else 1 - estimated_prob
  let q := 1 - p
  let kelly_fraction := if b ≤ 0 ∨ b * p - q ≤ 0 then 0 else (b * p - q) / b
  let confidence_adjustment := 0.5 + confidence * 0.5
  let correlation_penalty :=
    if correlated_exposure ≥ P.max_correlated_exposure then 0
    else max 0.1 (1 - correlated_exposure / P.max_correlated_exposure)
  let dd_penalty := drawdownPenalty current_drawdown P.max_drawdown_limit
  let adjusted0 :=
    kelly_fraction * dynamic_kelly * confidence_adjustment *
      correlation_penalty * dd_penalty
  let adjusted_fraction := npClip adjusted0 (P.min_fraction * kelly_fraction) P.max_fraction
  let position_size := bankroll * adjusted_fraction
  let shares :=
    if side = "YES" then
      if market_price > 0 then position_size / market_price else 0
    else
      if 1 - market_price > 0 then position_size / (1 - market_price) else 0
  { side := side
    kelly_fraction := kelly_fraction
    adjusted_fraction := adjusted_fraction
    position_size := position_size
    shares := shares
    confidence_adjustment := confidence_adjustment
    correlation_penalty := correlation_penalty
    drawdown_penalty := dd_penalty }

/-! ## `src/models/price_predictor.py`

Price memories are modelled as total maps `String → List ℚ` with default `[]`
(Python dicts read through `.get(slug, [])`).  `SimplePricePredictor` stores
`{price, timestamp}` records but only ever reads the prices; the timestamps
are not modelled.  `np.std` is `sqrt ∘ listVar` for a `sqrt` function passed
in as a parameter (float `sqrt` has no exact rational counterpart). -/

/-- The `(predicted_price, confidence)` content of the `PricePrediction`
dataclass (lines 14-22); the remaining fields (`market_slug`,
`trend_direction`, `features_used`, `model_name`) are reporting metadata
read by nothing in the claims. -/
structure PricePrediction where
  predicted_price : ℚ
  confidence : ℚ
deriving Repr, DecidableEq

/-- `SimplePricePredictor.predict` (lines 66-194) on the stored price list
for one market, with `lookback=10`.  The features `short_ma`, `long_ma`,
`price_velocity`, `max_recent`, `min_recent` are computed by the source but
never used by `_apply_heuristics`/`_calculate_confidence`, so they do not
appear. -/
def simplePredict (sqrt : ℚ → ℚ) (prices : List ℚ) : PricePrediction :=
  if prices.length < 5 then
    { predicted_price := prices.getLastD 0.5, confidence := 0.3 }
  else
    let n := prices.length
    let current := prices.getLastD 0
    let recent := takeLast (min 5 n) prices
    let momentum :=
      if recent.headD 0 > 0 then
        (recent.getLastD 0 - recent.headD 0) / recent.headD 0
      else 0
    let volatility :=
      sqrt (listVar (if 10 ≤ n then takeLast 10 prices else prices))
    let dist := qAbs (current - 0.5)
    let pr0 := current + momentum * 0.05
    let pr1 :=
      if current > 0.85 then pr0 - volatility * 0.3
      else if current < 0.15 then pr0 + volatility * 0.3
      else pr0
    let pr2 :=
      if 0.20 ≤ current ∧ current ≤ 0.80 then
        if momentum > 0.05 then pr1 + momentum * 0.03
        else if momentum < -0.05 then pr1 + momentum * 0.03
        else pr1
      else pr1
    let pr3 := if volatility > 0.1 then 0.7 * pr2 + 0.3 * current else pr2
    let data_confidence := min 1 ((n : ℚ) / 20)
    let vol_confidence := max 0 (1 - volatility * 5)
    let extreme_penalty := 1 - dist * 0.5
    { predicted_price := npClip pr3 0.05 0.95
      confidence :=
        npClip (data_confidence * 0.4 + vol_confidence * 0.4 + extreme_penalty * 0.2)
          0.1 0.95 }

/-- `MomentumPredictor.predict` (lines 237-273), `short_window=3`,
`long_window=10`. -/
def momentumPredict (prices : List ℚ) : PricePrediction :=
  if prices.length < 10 then
    { predicted_price := prices.getLastD 0.5, confidence := 0.2 }
  else
    let short_ma := listMean (takeLast 3 prices)
    let long_ma := listMean (takeLast 10 prices)
    let momentum := if long_ma > 0 then (short_ma - long_ma) / long_ma else 0
    let current := prices.getLastD 0
    { predicted_price := npClip (current + momentum * current * 0.5) 0.05 0.95
      confidence := min 0.9 (0.5 + qAbs momentum * 2) }

/-- `MeanReversionPredictor.predict` (lines 294-331), `window=20`,
`mean=0.5`.  (The moving average `ma` is computed by the source but unused.) -/
def meanReversionPredict (prices : List ℚ) : PricePrediction :=
  if prices.length < 5 then
    { predicted_price := prices.getLastD 0.5, confidence := 0.2 }
  else
    let current := prices.getLastD 0
    let distance := current - 0.5
    let reversion_strength := qAbs distance * 0.3
    { predicted_price := npClip (current - qSign distance * reversion_strength) 0.05 0.95
      confidence := min 0.9 (0.4 + qAbs distance * 0.8) }

/-! ## `src/models/edge_estimator.py` -/

/-- The `model_weights` dict; its keys are always exactly the five model
names of `EnsembleEdgeEstimator.__init__`. -/
structure ModelWeights where
  simple_price : ℚ
  momentum : ℚ
  mean_reversion : ℚ
  fundamental : ℚ
  sentiment : ℚ
deriving Repr, DecidableEq

/-- Initial weights (`edge_estimator.py`, lines 60-66). -/
def initialModelWeights : ModelWeights :=
  { simple_price := 0.25
    momentum := 0.25
    mean_reversion := 0.25
    fundamental := 0.15
    sentiment := 0.10 }

/-- Sum of the weight dict's values. -/
def wSum (w : ModelWeights) : ℚ :=
  w.simple_price + w.momentum + w.mean_reversion + w.fundamental + w.sentiment

/-- The `performance_history` dict: one trailing return list per model. -/
structure PerfHistory where
  simple_price : List ℚ
  momentum : List ℚ
  mean_reversion : List ℚ
  fundamental : List ℚ
  sentiment : List ℚ
deriving Repr, DecidableEq

/-- The per-model prediction dict built inside `estimate_probability`
(keys in Python insertion order: the three price models, then
`fundamental`, then `sentiment`). -/
structure Predictions where
  simple_price : ℚ
  momentum : ℚ
  mean_reversion : ℚ
  fundamental : ℚ
  sentiment : ℚ
deriving Repr, DecidableEq

/-- `list(predictions.values())`. -/
def predValues (pr : Predictions) : List ℚ :=
  [pr.simple_price, pr.momentum, pr.mean_reversion, pr.fundamental, pr.sentiment]

/-- The weighted sum `Σ predictions[m]·model_weights[m]` of the ensemble
layer.  Every key of `predictions` is a key of `model_weights`, so the
`.get(name, 0.1)` default never fires. -/
def wDot (w : ModelWeights) (pr : Predictions) : ℚ :=
  pr.simple_price * w.simple_price + pr.momentum * w.momentum +
    pr.mean_reversion * w.mean_reversion + pr.fundamental * w.fundamental +
    pr.sentiment * w.sentiment

/-- Mutable state of one `EnsembleEdgeEstimator` (the `PredictionTracker`
side channel is write-only in the modelled code paths and is not carried). -/
structure EnsembleState where
  simple_memory : String → List ℚ
  momentum_memory : String → List ℚ
  meanrev_memory : String → List ℚ
  model_weights : ModelWeights
  performance_history : PerfHistory

/-- A fresh `EnsembleEdgeEstimator()`. -/
def initialEnsembleState : EnsembleState :=
  { simple_memory := fun _ => []
    momentum_memory := fun _ => []
    meanrev_memory := fun _ => []
    model_weights := initialModelWeights
    performance_history := ⟨[], [], [], [], []⟩ }

/-- Point update of a price-memory map. -/
def updMap (m : String → List ℚ) (k : String) (f : List ℚ → List ℚ) :
    String → List ℚ :=
  fun k' => if k' = k then f (m k) else m k'

/-- `EnsembleEdgeEstimator.update_price` (`edge_estimator.py`, lines
165-169): every model that is not `None` and has an `update` method — the
three price predictors — appends the price to its window, keeping the last
100 (`SimplePricePredictor`, `memory_size=100`) resp. 50 entries
(`MomentumPredictor`, `MeanReversionPredictor`). -/
def update_price (st : EnsembleState) (market_slug : String) (price : ℚ) :
    EnsembleState :=
  { st with
    simple_memory := updMap st.simple_memory market_slug
      (fun l => takeLast 100 (l ++ [price]))
    momentum_memory := updMap st.momentum_memory market_slug
      (fun l => takeLast 50 (l ++ [price]))
    meanrev_memory := updMap st.meanrev_memory market_slug
      (fun l => takeLast 50 (l ++ [price])) }

/-- `_fundamental_predict` (lines 171-184): category base rates. -/
def fundamentalPredict (category : String) : ℚ :=
  if category = "politics" then 0.50
  else if category = "sports_favorite" then 0.60
  else if category = "sports_underdog" then 0.40
  else if category = "crypto" then 0.45
  else if category = "entertainment" then 0.50
  else if category = "business" then 0.55
  else if category = "general" then 0.50
  else 0.50

/-- `_sentiment_predict` (lines 186-190): `0.50 + np.random.normal(0, 0.02)`.
The Gaussian draw is the explicit `noise` argument; the `question` argument
is accepted and ignored exactly as in the source. -/
def sentimentPredict (noise : ℚ) (question : String) : ℚ := 0.50 + noise

/-- The Sharpe-like score of `_update_weights_from_performance`
(lines 203-214) for one model's trailing returns. -/
def performanceScore (sqrt : ℚ → ℚ) (returns : List ℚ) : ℚ :=
  if 5 ≤ returns.length then
    let recent := takeLast 20 returns
    let avg := listMean recent
    let std := sqrt (listVar recent)
    if std > 0 then avg / std else avg
  else 0

/-- `_update_weights_from_performance` (lines 192-225): early return
(weights kept) unless some model has more than 5 recorded returns; otherwise
weights become the softmax of the shifted performance scores.  `np.exp` is
the `exp` parameter. -/
def updateWeightsFromPerformance (sqrt exp : ℚ → ℚ) (st : EnsembleState) :
    ModelWeights :=
  let h := st.performance_history
  if ¬ (5 < h.simple_price.length ∨ 5 < h.momentum.length ∨
        5 < h.mean_reversion.length ∨ 5 < h.fundamental.length ∨
        5 < h.sentiment.length) then
    st.model_weights
  else
    let s1 := performanceScore sqrt h.simple_price
    let s2 := performanceScore sqrt h.momentum
    let s3 := performanceScore sqrt h.mean_reversion
    let s4 := performanceScore sqrt h.fundamental
    let s5 := performanceScore sqrt h.sentiment
    let min_score := min s1 (min s2 (min s3 (min s4 s5)))
    let e1 := exp (s1 - min_score + 0.1)
    let e2 := exp (s2 - min_score + 0.1)
    let e3 := exp (s3 - min_score + 0.1)
    let e4 := exp (s4 - min_score + 0.1)
    let e5 := exp (s5 - min_score + 0.1)
    let total := e1 + e2 + e3 + e4 + e5
    { simple_price := e1 / total
      momentum := e2 / total
      mean_reversion := e3 / total
      fundamental := e4 / total
      sentiment := e5 / total }

/-- The fields of the `EdgeEstimate` dataclass used by the claims and by
`simulate_capital_recycling`.  `expected_return`, `sharpe_ratio`,
`model_confidences` and `recommendation` are derived reporting fields read
by no modelled caller and are not carried. -/
structure EdgeEstimate where
  market_slug : String
  market_question : String
  current_price : ℚ
  ensemble_probability : ℚ
  edge : ℚ
  confidence : ℚ
  individual_predictions : Predictions
  model_weights : ModelWeights
deriving DecidableEq

/-- The prediction dict of `estimate_probability` (lines 94-111): one
Layer-1 prediction per model. -/
def predsOf (sqrt : ℚ → ℚ) (noise : ℚ) (st : EnsembleState)
    (market_slug market_question : String) (category : String) : Predictions :=
  { simple_price := (simplePredict sqrt (st.simple_memory market_slug)).predicted_price
    momentum := (momentumPredict (st.momentum_memory market_slug)).predicted_price
    mean_reversion := (meanReversionPredict (st.meanrev_memory market_slug)).predicted_price
    fundamental := fundamentalPredict category
    sentiment := sentimentPredict noise market_question }

/-- `EnsembleEdgeEstimator.estimate_probability` (`edge_estimator.py`,
lines 75-163).  Mutation of `self.model_weights` by the embedded call to
`_update_weights_from_performance` is returned as the second component. -/
def estimate_probability (sqrt exp : ℚ → ℚ) (noise : ℚ) (st : EnsembleState)
    (market_slug market_question : String) (current_price : ℚ)
    (category : String) : EdgeEstimate × EnsembleState :=
  let preds : Predictions := predsOf sqrt noise st market_slug market_question category
  let w := updateWeightsFromPerformance sqrt exp st
  let total_weight := wSum w
  let ensemble_prob0 := if total_weight > 0 then wDot w preds / total_weight else current_price
  let ensemble_prob := npClip ensemble_prob0 0.05 0.95
  let variance := listVar (predValues preds)
  let confidence := 1 - min 1 (variance * 2)
  ({ market_slug := market_slug
     market_question := market_question
     current_price := current_price
     ensemble_probability := ensemble_prob
     edge := ensemble_prob - current_price
     confidence := confidence
     individual_predictions := preds
     model_weights := w },
   { st with model_weights := w })

/-! ## `src/capital_recycling_simulation.py`

`simulate_capital_recycling` (lines 29-274).  Timestamps are the ISO-8601
strings of the data file; Python compares them as strings (both in the heap
and in the settle loop), so they are `String` here with the lexicographic
order.  The grouping/sorting preamble (lines 56-78) only constructs the
`entry_events` list; the embedding starts from an arbitrary such list, which
subsumes every list the preamble can produce.  The estimator is threaded as
an explicit state `σ` through an `EstOracle` interface: `upd` is
`estimator.update_price` and `est` is `estimator.estimate_probability`
returning `(ensemble_probability, confidence)` — the two fields the
simulation reads — plus the successor state.  (`EnsembleEdgeEstimator`
itself instantiates this interface once `np.sqrt`/`np.exp`/the sentiment
noise stream are fixed; it is kept abstract here because those float
operations have no exact rational counterpart.)  `AdaptiveKelly()` is fresh,
so `_get_dynamic_kelly_fraction()` always reports `base_fraction = 0.25`
(its `PredictionTracker` never records anything during the run).
`calculate_holding_days` only feeds the reporting field `holding_days`
(datetime parsing); that field is not modelled. -/

/-- One row of the historical data file. -/
structure DataPoint where
  timestamp : String
  price : ℚ
  outcome : Option ℚ
  question : String
  category : String
deriving Repr, DecidableEq

/-- One element of `entry_events`. -/
structure EntryEvent where
  market_slug : String
  market_data : List DataPoint
deriving Repr, DecidableEq

/-- One heap entry `(exit_time, len(trades), position_size, pnl)`
(lines 202 and 233). -/
structure Pending where
  exit_time : String
  seq : ℕ
  size : ℚ
  pnl : ℚ
deriving Repr, DecidableEq

/-- One element of `trades` (`holding_days` not modelled, see above). -/
structure Trade where
  market_slug : String
  side : String
  entry_price : ℚ
  position_size : ℚ
  exit_price : ℚ
  pnl : ℚ
  exit_reason : String
  tp_hit : Bool
deriving Repr, DecidableEq

/-- The estimator interface used by the simulation (see the section
comment). -/
structure EstOracle (σ : Type) where
  upd : σ → String → ℚ → σ
  est : σ → String → String → ℚ → String → (ℚ × ℚ) × σ

/-- The mutable state of the simulation loop.  `realized` is a ghost
accumulator with no Python counterpart: the sum of the `pnl` of the
positions settled so far (popped off the heap), introduced to state the
ledger invariant. -/
structure SimState (σ : Type) where
  available : ℚ
  pending : List Pending
  trades : List Trade
  est : σ
  realized : ℚ

/-- Heap order on `(exit_time, seq)`.  `seq = len(trades)` is strictly
increasing across pushes, so keys are distinct and `heapq` never compares
the remaining tuple components. -/
def pendBefore (a b : Pending) : Bool :=
  decide (a.exit_time < b.exit_time) ||
    (decide (a.exit_time = b.exit_time) && decide (a.seq ≤ b.seq))

/-- `heapq.heappush`: the heap is represented as the list sorted by
`pendBefore`, so the pop order matches `heapq`'s. -/
def heapPush (p : Pending) : List Pending → List Pending
  | [] => [p]
  | q :: rest => if pendBefore p q then p :: q :: rest else q :: heapPush p rest

/-- The settle loop (lines 97-100): pop every pending position with
`exit_time ≤ current_time`, returning its size plus P&L to the pool.
Returns (remaining heap, available, realized). -/
def settleGo (now : String) : List Pending → ℚ → ℚ → List Pending × ℚ × ℚ
  | [], available, realized => ([], available, realized)
  | p :: rest, available, realized =>
    if p.exit_time ≤ now then
      settleGo now rest (available + p.size + p.pnl) (realized + p.pnl)
    else (p :: rest, available, realized)

/-- Settle against the simulation state. -/
def settle {σ : Type} (now : String) (st : SimState σ) : SimState σ :=
  let r := settleGo now st.pending st.available st.realized
  { st with pending := r.1, available := r.2.1, realized := r.2.2 }

/-- Record a trade and block its capital until `exit_time` (lines 197-202
resp. 228-233): append to `trades`, subtract the size from the pool, push
`(exit_time, len(trades), size, pnl)`. -/
def openPosition {σ : Type} (st : SimState σ) (tr : Trade) (exit_time : String) :
    SimState σ :=
  let trades' := st.trades ++ [tr]
  { st with
    trades := trades'
    available := st.available - tr.position_size
    pending := heapPush
      ⟨exit_time, trades'.length, tr.position_size, tr.pnl⟩ st.pending }

/-- First data point of `market_data[1:]` that hits the take-profit level
(lines 159-165). -/
def findTpHit (entry_price : ℚ) (lvl : TakeProfitLevel) (side : String)
    (rest : List DataPoint) : Option DataPoint :=
  rest.find? (fun d => check_take_profit_hit entry_price d.price lvl side)

/-- The baseline open (lines 206-233), also reached inside the take-profit
branch when no data point hits the level (then with the identical trade
fields, lines 167-202): hold to resolution, P&L from the settled outcome. -/
def baselineOpen {σ : Type} (st : SimState σ) (slug side : String)
    (entry_price position_size : ℚ) (exit_data : DataPoint)
    (actual_outcome : ℚ) : SimState σ :=
  let shares :=
    if side = "YES" then position_size / entry_price
    else position_size / (1 - entry_price)
  let pnl :=
    if side = "YES" then (actual_outcome - entry_price) * shares
    else ((1 - actual_outcome) - (1 - entry_price)) * shares
  openPosition st
    { market_slug := slug
      side := side
      entry_price := entry_price
      position_size := position_size
      exit_price := exit_data.price
      pnl := pnl
      exit_reason := "resolution"
      tp_hit := false }
    exit_data.timestamp

/-- The take-profit open (lines 159-202) when some data point hits the
level: exit at the stored target price at that point's timestamp. -/
def tpHitOpen {σ : Type} (st : SimState σ) (slug side : String)
    (entry_price position_size : ℚ) (lvl : TakeProfitLevel)
    (hit_data : DataPoint) : SimState σ :=
  let exit_price := lvl.target_price
  let pnl :=
    if side = "YES" then (exit_price - entry_price) * (position_size / entry_price)
    else ((1 - entry_price) - (1 - exit_price)) * (position_size / (1 - entry_price))
  openPosition st
    { market_slug := slug
      side := side
      entry_price := entry_price
      position_size := position_size
      exit_price := exit_price
      pnl := pnl
      exit_reason := "tp"
      tp_hit := true }
    hit_data.timestamp

/-- Everything `simulate_capital_recycling` does once it has decided to
open a position of the given side and size (lines 144-233): try the
take-profit exit when enabled, otherwise hold to resolution. -/
def enterPosition {σ : Type} (st : SimState σ) (slug side : String)
    (entry_price prob position_size : ℚ) (exit_data : DataPoint)
    (actual_outcome : ℚ) (restData : List DataPoint)
    (use_take_profit : Bool) : SimState σ :=
  if use_take_profit then
    match calculate_take_profit entry_price prob side 0.5 0.05 0.01 0.99 with
    | .error _ => st
    | .ok none =>
      baselineOpen st slug side entry_price position_size exit_data
        actual_outcome
    | .ok (some tp_level) =>
      if tp_level.is_reachable then
        match findTpHit entry_price tp_level side restData with
        | some hit_data =>
          tpHitOpen st slug side entry_price position_size tp_level hit_data
        | none =>
          baselineOpen st slug side entry_price position_size exit_data
            actual_outcome
      else
        baselineOpen st slug side entry_price position_size exit_data
          actual_outcome
  else
    baselineOpen st slug side entry_price position_size exit_data
      actual_outcome

/-- The body of the entry-event loop of `simulate_capital_recycling`
(lines 91-233) for one event.  The `Except.error` arm of the take-profit
call mirrors a Python `ValueError`, which would abort the whole run; it is
modelled as a skip and is unreachable whenever the oracle\'s probability (in
Python: the ensemble probability, clipped to `[0.05, 0.95]`) lies in
`[0, 1]`. -/
def simStep {σ : Type} (O : EstOracle σ) (min_edge : ℚ) (use_take_profit : Bool)
    (st : SimState σ) (ev : EntryEvent) : SimState σ :=
  match ev.market_data with
  | [] => st
  | entry_data :: restData =>
    let current_time := entry_data.timestamp
    let st1 := settle current_time st
    if st1.available < 10 then st1
    else
      let exit_data := ev.market_data.getLastD entry_data
      let entry_price := entry_data.price
      match exit_data.outcome with
      | none => st1
      | some actual_outcome =>
        let estS := (ev.market_data.dropLast).foldl
          (fun s d => O.upd s ev.market_slug d.price) st1.est
        let r := O.est estS ev.market_slug entry_data.question entry_price
          entry_data.category
        let prob := r.1.1
        let conf := r.1.2
        let st2 := { st1 with est := r.2 }
        let edge := prob - entry_price
        if qAbs edge < min_edge then st2
        else
          let kelly := calculate_position_size defaultKellyParams 0.25
            st2.available entry_price prob conf 0 0
          if kelly.position_size ≤ 0 ∨ kelly.position_size > st2.available * 0.2 then st2
          else
            let position_size := min kelly.position_size st2.available
            enterPosition st2 ev.market_slug kelly.side entry_price prob
              position_size exit_data actual_outcome restData use_take_profit

/-- The closing loop (lines 236-238): pop every remaining pending position. -/
def drainGo : List Pending → ℚ → ℚ → ℚ × ℚ
  | [], available, realized => (available, realized)
  | p :: rest, available, realized =>
    drainGo rest (available + p.size + p.pnl) (realized + p.pnl)

/-- Apply the closing loop to the state. -/
def finalSettle {σ : Type} (st : SimState σ) : SimState σ :=
  { st with
    pending := []
    available := (drainGo st.pending st.available st.realized).1
    realized := (drainGo st.pending st.available st.realized).2 }

/-- Initial state (lines 84-89). -/
def initSimState {σ : Type} (s0 : σ) (initial_bankroll : ℚ) : SimState σ :=
  { available := initial_bankroll, pending := [], trades := [], est := s0,
    realized := 0 }

/-- Fold of `simStep` over the event list. -/
def runEvents {σ : Type} (O : EstOracle σ) (min_edge : ℚ)
    (use_take_profit : Bool) (st : SimState σ) (events : List EntryEvent) :
    SimState σ :=
  events.foldl (simStep O min_edge use_take_profit) st

/-- The aggregate statistics (lines 240-263; `avg_holding_days` and the
`strategy` label are not modelled). -/
structure SimResults where
  initial_bankroll : ℚ
  final_bankroll : ℚ
  total_pnl : ℚ
  total_trades : ℕ
  winning_trades : ℕ
  losing_trades : ℕ
  win_rate : ℚ
  tp_exits : ℕ
  resolution_exits : ℕ
  tp_hit_rate : ℚ
  trades : List Trade

/-- Build the results dict from the trades list. -/
def mkResults (initial_bankroll : ℚ) (trades : List Trade) : SimResults :=
  let final_bankroll := initial_bankroll + (trades.map (·.pnl)).sum
  let total_trades := trades.length
  let winning_trades := (trades.filter (fun t => t.pnl > 0)).length
  let tp_exits := (trades.filter (fun t => t.exit_reason = "tp")).length
  { initial_bankroll := initial_bankroll
    final_bankroll := final_bankroll
    total_pnl := final_bankroll - initial_bankroll
    total_trades := total_trades
    winning_trades := winning_trades
    losing_trades := total_trades - winning_trades
    win_rate := if total_trades > 0 then (winning_trades : ℚ) / total_trades else 0
    tp_exits := tp_exits
    resolution_exits := total_trades - tp_exits
    tp_hit_rate := if total_trades > 0 then (tp_exits : ℚ) / total_trades else 0
    trades := trades }

/-- `simulate_capital_recycling` (lines 29-274): run all entry events, close
every remaining pending position, and report the final state together with
the statistics. -/
def simulate_capital_recycling {σ : Type} (O : EstOracle σ) (s0 : σ)
    (events : List EntryEvent) (initial_bankroll min_edge : ℚ)
    (use_take_profit : Bool) : SimState σ × SimResults :=
  let st := runEvents O min_edge use_take_profit
    (initSimState s0 initial_bankroll) events
  let fin := finalSettle st
  (fin, mkResults initial_bankroll fin.trades)

/-- `committed`: total size of the currently pending (open) positions. -/
def committed (pending : List Pending) : ℚ := (pending.map (·.size)).sum

/-- The capital-ledger property of the claim, for one state: the available
pool equals the fixed bankroll minus committed capital plus the realized
P&L of settled positions, and is non-negative. -/
def LedgerOk (bankroll : ℚ) {σ : Type} (st : SimState σ) : Prop :=
  st.available = bankroll - committed st.pending + st.realized ∧ 0 ≤ st.available

/-- Every pending heap entry has non-negative size and returns a
non-negative amount (`size + pnl`) when settled. -/
def PendingOk (pending : List Pending) : Prop :=
  ∀ p ∈ pending, 0 ≤ p.size ∧ 0 ≤ p.size + p.pnl

/-- Strengthened loop invariant: the ledger property plus `PendingOk`. -/
def SimInv (bankroll : ℚ) {σ : Type} (st : SimState σ) : Prop :=
  LedgerOk bankroll st ∧ PendingOk st.pending

/-- Admissible event data: every price lies in `[0, 1]` and every recorded
outcome is binary. -/
def EventDataOk (ev : EntryEvent) : Prop :=
  ∀ d ∈ ev.market_data,
    (0 ≤ d.price ∧ d.price ≤ 1) ∧ ∀ o, d.outcome = some o → o = 0 ∨ o = 1

/-- A concrete estimator oracle (stateless, probability 0.6 and confidence
0.8 for every market) used to exercise the simulation on concrete data. -/
def demoOracle : EstOracle Unit :=
  { upd := fun _ _ _ => ()
    est := fun s _ _ _ _ => ((0.6, 0.8), s) }

/-- A concrete two-point entry event: entry at price 0.40, resolution YES. -/
def demoEvent : EntryEvent :=
  { market_slug := "m"
    market_data :=
      [⟨"2024-01-01T00:00:00", 0.4, none, "q", "general"⟩,
       ⟨"2024-01-02T00:00:00", 1, some 1, "q", "general"⟩] }

/-! ## Helper lemmas -/

theorem qAbs_eq_abs (q : ℚ) : qAbs q = |q| := by
  unfold qAbs
  rcases lt_or_le q 0 with h | h
  · rw [if_pos h, abs_of_neg h]
  · rw [if_neg (not_lt.mpr h), abs_of_nonneg h]

theorem string_no_ne_yes : (("NO" : String) = "YES") = False := by simp

theorem roundHalfEven_le (q : ℚ) : (roundHalfEven q : ℚ) ≤ q + 1/2 := by
  simp only [roundHalfEven]
  have hf : (⌊q⌋ : ℚ) ≤ q := Int.floor_le q
  have hf' : q < (⌊q⌋ : ℚ) + 1 := Int.lt_floor_add_one q
  split_ifs with h1 h2 h3 <;> push_cast <;> linarith

theorem roundHalfEven_ge (q : ℚ) : q - 1/2 ≤ (roundHalfEven q : ℚ) := by
  simp only [roundHalfEven]
  have hf : (⌊q⌋ : ℚ) ≤ q := Int.floor_le q
  have hf' : q < (⌊q⌋ : ℚ) + 1 := Int.lt_floor_add_one q
  split_ifs with h1 h2 h3 <;> push_cast <;> linarith

theorem pyRound4_le (q : ℚ) : pyRound4 q ≤ q + 1/20000 := by
  unfold pyRound4
  have h := roundHalfEven_le (q * 10000)
  rw [div_le_iff₀ (by norm_num : (0:ℚ) < 10000)]
  linarith

theorem pyRound4_ge (q : ℚ) : q - 1/20000 ≤ pyRound4 q := by
  unfold pyRound4
  have h := roundHalfEven_ge (q * 10000)
  rw [le_div_iff₀ (by norm_num : (0:ℚ) < 10000)]
  linarith

/-- Shared lower bound for all P&L formulas: a position of non-negative
size loses at most its size.  (`a` is the effective entry price; with
`a = 0` Lean's division by zero makes the product 0.) -/
theorem pnl_ge_neg_size (a x size : ℚ) (ha : 0 ≤ a) (hx : -a ≤ x)
    (hs : 0 ≤ size) : -size ≤ x * (size / a) := by
  rcases ha.eq_or_lt with h | h
  · rw [← h, div_zero, mul_zero]
    linarith
  · have ha' : a ≠ 0 := h.ne'
    have h1 : (-a) * (size / a) ≤ x * (size / a) :=
      mul_le_mul_of_nonneg_right hx (div_nonneg hs h.le)
    have h2 : (-a) * (size / a) = -size := by
      field_simp
      ring
    linarith

/-! ## Claim theorems -/

/-- C5: the take-profit target follows the edge-capture formula.  A YES
position entered at 0.40 with estimated probability 0.50 and capture ratio
0.5 targets 0.45; a NO position entered at YES-price 0.65 with estimated
probability 0.50 targets YES-price 0.725 (NO-price 0.275). -/
theorem take_profit_edge_capture_scenarios :
    calculate_take_profit 0.40 0.50 "YES" 0.5 0.05 0.01 0.99 =
      .ok (some ⟨9/20, 1/8, 1/20, true, 1/2, 1/10, 2/5, "YES"⟩) ∧
    calculate_take_profit 0.65 0.50 "NO" 0.5 0.05 0.01 0.99 =
      .ok (some ⟨29/40, 2143/10000, -3/40, true, 1/2, 3/20, 13/20, "NO"⟩) := by
  constructor
  · norm_num [calculate_take_profit, pyRound4, roundHalfEven, qAbs]
  · norm_num [calculate_take_profit, pyRound4, roundHalfEven, qAbs,
      string_no_ne_yes]

/-- On inputs passing the three validations, `calculate_take_profit`
returns `.ok`. -/
theorem take_profit_ok_of_valid (e p : ℚ) (s : String) (r t lo hi : ℚ)
    (hs : s = "YES" ∨ s = "NO") (he : 0 ≤ e ∧ e ≤ 1) (hp : 0 ≤ p ∧ p ≤ 1) :
    ∃ v, calculate_take_profit e p s r t lo hi = .ok v := by
  simp only [calculate_take_profit]
  rw [if_neg (not_not_intro hs), if_neg (not_not_intro he),
    if_neg (not_not_intro hp)]
  split_ifs <;> exact ⟨_, rfl⟩

/-- C9: `calculate_take_profit` raises `ValueError` exactly when the side is
neither "YES" nor "NO", or the entry price is outside `[0,1]`, or the
estimated probability is outside `[0,1]`; on inputs passing all three
validations it never raises. -/
theorem take_profit_error_iff (e p : ℚ) (s : String) (r t lo hi : ℚ) :
    (∃ msg, calculate_take_profit e p s r t lo hi = .error msg) ↔
      (¬ (s = "YES" ∨ s = "NO") ∨ ¬ (0 ≤ e ∧ e ≤ 1) ∨ ¬ (0 ≤ p ∧ p ≤ 1)) := by
  constructor
  · rintro ⟨msg, hm⟩
    by_contra hcon
    push_neg at hcon
    obtain ⟨v, hv⟩ := take_profit_ok_of_valid e p s r t lo hi
      hcon.1 hcon.2.1 hcon.2.2
    rw [hv] at hm
    exact Except.noConfusion hm
  · intro h
    unfold calculate_take_profit
    by_cases h1 : ¬ (s = "YES" ∨ s = "NO")
    · rw [if_pos h1]
      exact ⟨_, rfl⟩
    · rw [if_neg h1]
      by_cases h2 : ¬ (0 ≤ e ∧ e ≤ 1)
      · rw [if_pos h2]
        exact ⟨_, rfl⟩
      · rw [if_neg h2]
        by_cases h3 : ¬ (0 ≤ p ∧ p ≤ 1)
        · rw [if_pos h3]
          exact ⟨_, rfl⟩
        · tauto

/-- C10: `check_take_profit_hit` does not depend on its `entry_price`
argument; its result is exactly the comparison of `current_price` with the
stored target (`≥` for YES, `≤` for NO). -/
theorem check_take_profit_hit_ignores_entry (e1 e2 cp : ℚ)
    (lvl : TakeProfitLevel) (s : String) :
    check_take_profit_hit e1 cp lvl s = check_take_profit_hit e2 cp lvl s ∧
    check_take_profit_hit e1 cp lvl "YES" = decide (cp ≥ lvl.target_price) ∧
    check_take_profit_hit e1 cp lvl "NO" = decide (cp ≤ lvl.target_price) := by
  refine ⟨rfl, rfl, ?_⟩
  simp [check_take_profit_hit]

/-- C4 counterexample: at `entry_price = 0.10` — outside the OPEN interval
`(0.10, 0.90)` — with a 10% edge, the claim predicts "no levels", but the
code's strict comparisons (`> 0.90 or < 0.10`) keep the boundary and return
a level. -/
theorem take_profit_boundary_counterexample :
    (1/20 : ℚ) ≤ |initialEdgeOf "YES" (1/10) (1/5)| ∧
    ¬ ((0.10 : ℚ) < 1/10 ∧ (1/10 : ℚ) < 0.90) ∧
    calculate_take_profit (1/10) (1/5) "YES" 0.5 0.05 0.01 0.99 ≠ .ok none := by
  refine ⟨?_, ?_, ?_⟩
  · rw [← qAbs_eq_abs]
    norm_num [initialEdgeOf, qAbs]
  · norm_num
  · norm_num [calculate_take_profit, qAbs]
    simp

/-- C4 (amended): for validated inputs, `calculate_take_profit` returns
"no levels" (`None`) exactly when `|initial_edge| < min_edge_threshold` or
the entry price lies outside the CLOSED interval `[0.10, 0.90]`
(`entry < 0.10` or `entry > 0.90`; the boundary prices 0.10 and 0.90 get
levels).  At the default threshold 0.05 it returns `None` for entry 0.05
and 0.95 (with ≥5% edge) and for `|edge| = 0.049`, and a level for
`|edge| = 0.05` exactly. -/
theorem take_profit_none_iff :
    (∀ (e p : ℚ) (s : String) (ratio thr lo hi : ℚ),
      (s = "YES" ∨ s = "NO") → 0 ≤ e → e ≤ 1 → 0 ≤ p → p ≤ 1 →
      (calculate_take_profit e p s ratio thr lo hi = .ok none ↔
        |initialEdgeOf s e p| < thr ∨ e < 1/10 ∨ 9/10 < e)) ∧
    calculate_take_profit 0.05 0.15 "YES" 0.5 0.05 0.01 0.99 = .ok none ∧
    calculate_take_profit 0.95 0.85 "YES" 0.5 0.05 0.01 0.99 = .ok none ∧
    calculate_take_profit 0.50 0.549 "YES" 0.5 0.05 0.01 0.99 = .ok none ∧
    (∃ lvl, calculate_take_profit 0.50 0.55 "YES" 0.5 0.05 0.01 0.99 =
      .ok (some lvl)) := by
  refine ⟨?_, ?_, ?_, ?_, ?_⟩
  · intro e p s ratio thr lo hi hs he1 he2 hp1 hp2
    unfold initialEdgeOf
    rw [← qAbs_eq_abs]
    simp only [calculate_take_profit]
    rw [if_neg (not_not_intro hs), if_neg (not_not_intro ⟨he1, he2⟩),
      if_neg (not_not_intro ⟨hp1, hp2⟩)]
    by_cases hthr : qAbs (if s = "YES" then p - e else 1 - p - (1 - e)) < thr
    · rw [if_pos hthr]
      exact iff_of_true rfl (Or.inl hthr)
    · rw [if_neg hthr]
      by_cases hband : e > 0.90 ∨ e < 0.10
      · rw [if_pos hband]
        refine iff_of_true rfl (Or.inr ?_)
        rcases hband with h | h
        · right
          norm_num at h ⊢
          linarith
        · left
          norm_num at h ⊢
          linarith
      · rw [if_neg hband]
        push_neg at hband
        refine iff_of_false (by simp) ?_
        push_neg
        refine ⟨not_lt.mp hthr, ?_, ?_⟩
        · norm_num at hband ⊢
          linarith [hband.2]
        · norm_num at hband ⊢
          linarith [hband.1]
  · norm_num [calculate_take_profit, qAbs]
  · norm_num [calculate_take_profit, qAbs]
  · norm_num [calculate_take_profit, qAbs]
  · exact ⟨⟨21/40, 1/20, 1/40, true, 1/2, 1/20, 1/2, "YES"⟩,
      by norm_num [calculate_take_profit, qAbs, pyRound4, roundHalfEven]⟩

/-- C4 witness: the amended iff applied at a concrete valid input. -/
theorem take_profit_none_iff_witness :
    calculate_take_profit 0.40 0.50 "YES" 0.5 0.05 0.01 0.99 = .ok none ↔
      |initialEdgeOf "YES" 0.40 0.50| < 0.05 ∨ (0.40 : ℚ) < 1/10 ∨
        (9 : ℚ)/10 < 0.40 :=
  take_profit_none_iff.1 0.40 0.50 "YES" 0.5 0.05 0.01 0.99 (Or.inl rfl)
    (by norm_num) (by norm_num) (by norm_num) (by norm_num)

/-- C6 counterexample: with the default limit 0.20, the code's drawdown
multiplier at drawdown 0.15 is `1 − 0.15/0.20 = 0.25`, while the claimed
continuous ramp (value 1.0 at half the limit, linear to 0 at the limit)
would give 0.5 there — the code's ramp restarts from 0.5, not 1.0. -/
theorem drawdown_ramp_counterexample :
    (calculate_position_size defaultKellyParams 0.25 1000 0.40 0.60 0.5 0
        0.15).drawdown_penalty = 1/4 ∧
    drawdownPenalty 0.15 0.20 = 1/4 ∧
    (1 : ℚ) - (0.15 - 0.10)/(0.20 - 0.10) = 1/2 ∧
    (1/4 : ℚ) ≠ 1/2 := by
  refine ⟨?_, ?_, by norm_num, by norm_num⟩
  · norm_num [calculate_position_size, defaultKellyParams, drawdownPenalty]
  · norm_num [drawdownPenalty]

/-- C6 (amended): the drawdown multiplier of `calculate_position_size` is
1.0 for drawdowns at or below half the limit, `1 − d/limit` strictly
between half the limit and the limit (a linear ramp reaching 0 at the
limit, but starting from 0.5 — discontinuous at half the limit), and 0 at
or above the limit. -/
theorem drawdown_penalty_spec :
    ∀ d L : ℚ, 0 < L →
      ((L ≤ d → drawdownPenalty d L = 0) ∧
       (L * 0.5 < d → d < L → drawdownPenalty d L = 1 - d / L) ∧
       (d ≤ L * 0.5 → drawdownPenalty d L = 1) ∧
       ∀ P dk bk mp ep c ce,
         (calculate_position_size P dk bk mp ep c ce d).drawdown_penalty =
           drawdownPenalty d P.max_drawdown_limit) := by
  intro d L hL
  refine ⟨?_, ?_, ?_, ?_⟩
  · intro h
    unfold drawdownPenalty
    rw [if_pos h]
  · intro h1 h2
    unfold drawdownPenalty
    rw [if_neg (not_le.mpr h2), if_pos h1]
  · intro h
    unfold drawdownPenalty
    have hx : ¬ (d ≥ L) := by
      push_neg
      nlinarith
    rw [if_neg hx, if_neg (not_lt.mpr h)]
  · intro P dk bk mp ep c ce
    simp only [calculate_position_size]

/-- C6 witness: the amended ramp description applied at concrete drawdowns
0.15 (mid-ramp) and 0.05 (below half the limit) with the default 0.20
limit. -/
theorem drawdown_penalty_spec_witness :
    drawdownPenalty 0.15 0.20 = 1 - 0.15 / 0.20 ∧
    drawdownPenalty 0.05 0.20 = 1 :=
  ⟨(drawdown_penalty_spec 0.15 0.20 (by norm_num)).2.1 (by norm_num)
      (by norm_num),
   (drawdown_penalty_spec 0.05 0.20 (by norm_num)).2.2.1 (by norm_num)⟩

/-- C3 counterexample: the price 2 is outside `[0, 1]`, yet
`update_price` changes the momentum model's stored window for the market —
there is no input validation. -/
theorem update_price_no_validation_counterexample :
    (1 : ℚ) < 2 ∧
    (update_price initialEnsembleState "m" 2).momentum_memory "m" = [2] ∧
    initialEnsembleState.momentum_memory "m" = [] := by
  refine ⟨by norm_num, ?_, rfl⟩
  simp [update_price, updMap, initialEnsembleState, takeLast]

/-- C3 (amended): `update_price` performs no validation at all: for every
price whatsoever it appends the price to each model's window for that
market (keeping the last 100 entries for `SimplePricePredictor` and the
last 50 for the momentum and mean-reversion models).  (Non-finite floats
have no rational counterpart; on them Python likewise stores the value
unchecked.) -/
theorem update_price_appends_unconditionally
    (st : EnsembleState) (slug : String) (price : ℚ) :
    (update_price st slug price).simple_memory slug =
      takeLast 100 (st.simple_memory slug ++ [price]) ∧
    (update_price st slug price).momentum_memory slug =
      takeLast 50 (st.momentum_memory slug ++ [price]) ∧
    (update_price st slug price).meanrev_memory slug =
      takeLast 50 (st.meanrev_memory slug ++ [price]) := by
  refine ⟨?_, ?_, ?_⟩ <;> simp [update_price, updMap]

/-- C2 counterexample: `estimate_probability` depends on the Gaussian draw
of `_sentiment_predict` (`np.random.normal`, not part of the estimator
state or the arguments), so two calls on the same state with identical
arguments can return different ensemble probabilities. -/
theorem estimate_probability_noise_counterexample :
    ((estimate_probability (fun _ => 0) (fun _ => 1) 0 initialEnsembleState
        "m" "q" 0.5 "politics").1.ensemble_probability) ≠
    ((estimate_probability (fun _ => 0) (fun _ => 1) (1/100)
        initialEnsembleState "m" "q" 0.5 "politics").1.ensemble_probability) := by
  norm_num [estimate_probability, predsOf, simplePredict, momentumPredict,
    meanReversionPredict, fundamentalPredict, sentimentPredict,
    updateWeightsFromPerformance, initialEnsembleState, initialModelWeights,
    wSum, wDot, npClip, listMean, listVar, takeLast, min_def, max_def]

/-- C2 (amended): the replay is deterministic only once the sentiment
model's random draws are fixed: `estimate_probability` is a pure function
of (state, arguments, draw) — equal draws give equal results — and
`simulate_capital_recycling` is a pure function of its inputs (data,
parameters, estimator oracle), so two runs with the same inputs and the
same draw stream coincide. -/
theorem backtest_deterministic_given_draws :
    (∀ (sqrt exp : ℚ → ℚ) (n1 n2 : ℚ) (st : EnsembleState)
       (slug q : String) (price : ℚ) (cat : String), n1 = n2 →
       estimate_probability sqrt exp n1 st slug q price cat =
         estimate_probability sqrt exp n2 st slug q price cat) ∧
    (∀ (σ : Type) (O : EstOracle σ) (s0 : σ) (events : List EntryEvent)
       (b me : ℚ) (tp : Bool),
       simulate_capital_recycling O s0 events b me tp =
         simulate_capital_recycling O s0 events b me tp) := by
  constructor
  · intro sqrt exp n1 n2 st slug q price cat h
    rw [h]
  · intro σ O s0 events b me tp
    rfl

/-- C2 witness: the amended determinism applied at a concrete draw. -/
theorem backtest_deterministic_given_draws_witness :
    estimate_probability (fun _ => 0) (fun _ => 1) 0 initialEnsembleState
        "m" "q" 0.5 "general" =
      estimate_probability (fun _ => 0) (fun _ => 1) 0 initialEnsembleState
        "m" "q" 0.5 "general" :=
  backtest_deterministic_given_draws.1 (fun _ => 0) (fun _ => 1) 0 0
    initialEnsembleState "m" "q" 0.5 "general" rfl

/-- A five-way softmax sums to 1 when every exponential is positive. -/
theorem softmax_sum_one (e1 e2 e3 e4 e5 : ℚ) (h1 : 0 < e1) (h2 : 0 < e2)
    (h3 : 0 < e3) (h4 : 0 < e4) (h5 : 0 < e5) :
    e1 / (e1 + e2 + e3 + e4 + e5) + e2 / (e1 + e2 + e3 + e4 + e5) +
      e3 / (e1 + e2 + e3 + e4 + e5) + e4 / (e1 + e2 + e3 + e4 + e5) +
      e5 / (e1 + e2 + e3 + e4 + e5) = 1 := by
  rw [div_add_div_same, div_add_div_same, div_add_div_same, div_add_div_same]
  exact div_self (by positivity)

/-- C8: the model weights sum to 1 after every reweighting step — both when
`_update_weights_from_performance` returns early for lack of data (keeping
weights that already summed to 1, as the initial weights
0.25+0.25+0.25+0.15+0.10 do) and when it recomputes them as a softmax. -/
theorem model_weights_sum_one (sqrt exp : ℚ → ℚ) (st : EnsembleState)
    (hexp : ∀ x, 0 < exp x) (hw : wSum st.model_weights = 1) :
    wSum (updateWeightsFromPerformance sqrt exp st) = 1 ∧
    wSum initialModelWeights = 1 := by
  constructor
  · simp only [updateWeightsFromPerformance]
    split_ifs with h
    · simp only [wSum]
      exact softmax_sum_one _ _ _ _ _ (hexp _) (hexp _) (hexp _) (hexp _)
        (hexp _)
    · exact hw
  · norm_num [wSum, initialModelWeights]

/-- C8 witness: the sum-to-1 invariant applied to a fresh estimator with a
concrete positive `exp`. -/
theorem model_weights_sum_one_witness :
    wSum (updateWeightsFromPerformance (fun _ => 0) (fun _ => 1)
      initialEnsembleState) = 1 ∧ wSum initialModelWeights = 1 :=
  model_weights_sum_one (fun _ => 0) (fun _ => 1) initialEnsembleState
    (fun _ => by norm_num) (by norm_num [wSum, initialEnsembleState, initialModelWeights])

/-- C7: `estimate_probability` returns the weight-weighted average of the
individual model predictions clipped to `[0.05, 0.95]` (with the weights
produced by the reweighting step that the call itself performs), confidence
`1 − min(1, 2·variance)` over the model predictions, and
`edge = ensemble_probability − current market price`. -/
theorem estimate_probability_formula (sqrt exp : ℚ → ℚ) (noise : ℚ)
    (st : EnsembleState) (slug q : String) (price : ℚ) (cat : String)
    (htot : 0 < wSum (updateWeightsFromPerformance sqrt exp st)) :
    (estimate_probability sqrt exp noise st slug q price cat).1.ensemble_probability =
      npClip (wDot (updateWeightsFromPerformance sqrt exp st)
          (predsOf sqrt noise st slug q cat) /
        wSum (updateWeightsFromPerformance sqrt exp st)) 0.05 0.95 ∧
    (estimate_probability sqrt exp noise st slug q price cat).1.confidence =
      1 - min 1 (2 * listVar (predValues (predsOf sqrt noise st slug q cat))) ∧
    (estimate_probability sqrt exp noise st slug q price cat).1.edge =
      (estimate_probability sqrt exp noise st slug q price cat).1.ensemble_probability
        - price := by
  refine ⟨?_, ?_, ?_⟩
  · simp only [estimate_probability]
    rw [if_pos htot]
  · simp only [estimate_probability]
    rw [mul_comm]
  · simp only [estimate_probability]

/-- C7 witness: the formula applied to a fresh estimator (whose reweight
step keeps the initial weights, which sum to 1 > 0). -/
theorem estimate_probability_formula_witness :
    (estimate_probability (fun _ => 0) (fun _ => 1) 0 initialEnsembleState
        "m" "q" 0.5 "general").1.ensemble_probability =
      npClip (wDot (updateWeightsFromPerformance (fun _ => 0) (fun _ => 1)
          initialEnsembleState)
          (predsOf (fun _ => 0) 0 initialEnsembleState "m" "q" "general") /
        wSum (updateWeightsFromPerformance (fun _ => 0) (fun _ => 1)
          initialEnsembleState)) 0.05 0.95 :=
  (estimate_probability_formula (fun _ => 0) (fun _ => 1) 0
    initialEnsembleState "m" "q" 0.5 "general"
    (by norm_num [updateWeightsFromPerformance, initialEnsembleState,
      initialModelWeights, wSum])).1

theorem qAbs_nonneg (q : ℚ) : 0 ≤ qAbs q := by
  unfold qAbs
  split_ifs with h <;> linarith

theorem committed_heapPush (p : Pending) (l : List Pending) :
    committed (heapPush p l) = p.size + committed l := by
  induction l with
  | nil => simp [heapPush, committed]
  | cons q rest ih =>
    simp only [heapPush]
    split_ifs with h
    · simp [committed]
    · simp only [committed, List.map_cons, List.sum_cons] at ih ⊢
      rw [ih]
      ring

theorem pendingOk_heapPush (p : Pending) (h1 : 0 ≤ p.size)
    (h2 : 0 ≤ p.size + p.pnl) :
    ∀ l : List Pending, PendingOk l → PendingOk (heapPush p l) := by
  intro l
  induction l with
  | nil =>
    intro _ x hx
    simp only [heapPush, List.mem_singleton] at hx
    subst hx
    exact ⟨h1, h2⟩
  | cons q rest ih =>
    intro hl x hx
    simp only [heapPush] at hx
    split_ifs at hx
    · rcases List.mem_cons.mp hx with rfl | hx'
      · exact ⟨h1, h2⟩
      · exact hl x hx'
    · rcases List.mem_cons.mp hx with rfl | hx'
      · exact hl x (List.mem_cons_self _ _)
      · exact ih (fun y hy => hl y (List.mem_cons_of_mem _ hy)) x hx'

theorem settleGo_spec (B : ℚ) (now : String) :
    ∀ (l : List Pending) (av re : ℚ), PendingOk l →
      av = B - committed l + re → 0 ≤ av →
      (settleGo now l av re).2.1 =
          B - committed (settleGo now l av re).1 + (settleGo now l av re).2.2 ∧
        0 ≤ (settleGo now l av re).2.1 ∧ PendingOk (settleGo now l av re).1 := by
  intro l
  induction l with
  | nil =>
    intro av re hok he ha
    simp only [settleGo]
    exact ⟨he, ha, hok⟩
  | cons p rest ih =>
    intro av re hok he ha
    simp only [settleGo]
    split_ifs with h
    · have hp := hok p (List.mem_cons_self _ _)
      apply ih
      · exact fun y hy => hok y (List.mem_cons_of_mem _ hy)
      · simp only [committed, List.map_cons, List.sum_cons] at he ⊢
        linarith
      · linarith [hp.2]
    · exact ⟨he, ha, hok⟩

theorem settle_inv {σ : Type} (B : ℚ) (now : String) (st : SimState σ)
    (h : SimInv B st) : SimInv B (settle now st) := by
  obtain ⟨⟨he, ha⟩, hok⟩ := h
  have H := settleGo_spec B now st.pending st.available st.realized hok he ha
  exact ⟨⟨H.1, H.2.1⟩, H.2.2⟩

theorem drainGo_spec (B : ℚ) :
    ∀ (l : List Pending) (av re : ℚ), PendingOk l →
      av = B - committed l + re → 0 ≤ av →
      (drainGo l av re).1 = B + (drainGo l av re).2 ∧
        0 ≤ (drainGo l av re).1 := by
  intro l
  induction l with
  | nil =>
    intro av re _ he ha
    simp only [drainGo]
    simp only [committed, List.map_nil, List.sum_nil] at he
    exact ⟨by linarith, ha⟩
  | cons p rest ih =>
    intro av re hok he ha
    simp only [drainGo]
    have hp := hok p (List.mem_cons_self _ _)
    apply ih
    · exact fun y hy => hok y (List.mem_cons_of_mem _ hy)
    · simp only [committed, List.map_cons, List.sum_cons] at he ⊢
      linarith
    · linarith [hp.2]

theorem finalSettle_inv {σ : Type} (B : ℚ) (st : SimState σ)
    (h : SimInv B st) : SimInv B (finalSettle st) := by
  obtain ⟨⟨he, ha⟩, hok⟩ := h
  have H := drainGo_spec B st.pending st.available st.realized hok he ha
  refine ⟨⟨?_, H.2⟩, ?_⟩
  · show (drainGo st.pending st.available st.realized).1 =
      B - committed [] + (drainGo st.pending st.available st.realized).2
    simp only [committed, List.map_nil, List.sum_nil]
    linarith [H.1]
  · intro x hx
    simp only [finalSettle] at hx
    exact absurd hx (List.not_mem_nil x)

theorem openPosition_inv {σ : Type} (B : ℚ) (st : SimState σ) (tr : Trade)
    (t : String) (h : SimInv B st) (h1 : 0 ≤ tr.position_size)
    (h2 : tr.position_size ≤ st.available)
    (h3 : 0 ≤ tr.position_size + tr.pnl) :
    SimInv B (openPosition st tr t) := by
  obtain ⟨⟨he, ha⟩, hok⟩ := h
  refine ⟨⟨?_, ?_⟩, ?_⟩
  · show st.available - tr.position_size =
      B - committed (heapPush ⟨t, (st.trades ++ [tr]).length,
        tr.position_size, tr.pnl⟩ st.pending) + st.realized
    rw [committed_heapPush]
    linarith
  · show 0 ≤ st.available - tr.position_size
    linarith
  · exact pendingOk_heapPush _ h1 h3 _ hok

theorem baselineOpen_inv {σ : Type} (B : ℚ) (st : SimState σ)
    (slug side : String) (e size : ℚ) (xd : DataPoint) (o : ℚ)
    (hinv : SimInv B st) (he0 : 0 ≤ e) (he1 : e ≤ 1) (ho : o = 0 ∨ o = 1)
    (h0 : 0 ≤ size) (hs : size ≤ st.available) :
    SimInv B (baselineOpen st slug side e size xd o) := by
  have ho0 : (0:ℚ) ≤ o := by rcases ho with rfl | rfl <;> norm_num
  have ho1 : o ≤ 1 := by rcases ho with rfl | rfl <;> norm_num
  unfold baselineOpen
  by_cases hside : side = "YES"
  · simp only [if_pos hside]
    refine openPosition_inv B st _ _ hinv h0 hs ?_
    show 0 ≤ size + (o - e) * (size / e)
    have := pnl_ge_neg_size e (o - e) size he0 (by linarith) h0
    linarith
  · simp only [if_neg hside]
    refine openPosition_inv B st _ _ hinv h0 hs ?_
    show 0 ≤ size + ((1 - o) - (1 - e)) * (size / (1 - e))
    have := pnl_ge_neg_size (1 - e) ((1 - o) - (1 - e)) size (by linarith)
      (by linarith) h0
    linarith

theorem tpHitOpen_inv {σ : Type} (B : ℚ) (st : SimState σ)
    (slug side : String) (e size : ℚ) (lvl : TakeProfitLevel)
    (hd : DataPoint) (hinv : SimInv B st) (h0 : 0 ≤ size)
    (hs : size ≤ st.available) (he1 : 1/10 ≤ e) (he2 : e ≤ 9/10)
    (hy : side = "YES" → 0 ≤ lvl.target_price)
    (hn : ¬ side = "YES" → 1 - lvl.target_price ≤ 2 * (1 - e)) :
    SimInv B (tpHitOpen st slug side e size lvl hd) := by
  unfold tpHitOpen
  by_cases hside : side = "YES"
  · simp only [if_pos hside]
    refine openPosition_inv B st _ _ hinv h0 hs ?_
    show 0 ≤ size + (lvl.target_price - e) * (size / e)
    have ht := hy hside
    have := pnl_ge_neg_size e (lvl.target_price - e) size (by linarith)
      (by linarith) h0
    linarith
  · simp only [if_neg hside]
    refine openPosition_inv B st _ _ hinv h0 hs ?_
    show 0 ≤ size + ((1 - e) - (1 - lvl.target_price)) * (size / (1 - e))
    have hb := hn hside
    have := pnl_ge_neg_size (1 - e) ((1 - e) - (1 - lvl.target_price)) size
      (by linarith) (by linarith) h0
    linarith

theorem tp_yes_facts (e p : ℚ) (lvl : TakeProfitLevel)
    (h : calculate_take_profit e p "YES" 0.5 0.05 0.01 0.99 = .ok (some lvl))
    (hr : lvl.is_reachable = true) :
    1/10 ≤ e ∧ e ≤ 9/10 ∧ 0 ≤ lvl.target_price := by
  simp only [calculate_take_profit] at h
  rw [if_neg (by simp)] at h
  by_cases he : ¬ (0 ≤ e ∧ e ≤ 1)
  · rw [if_pos he] at h
    exact absurd h (by simp)
  rw [if_neg he] at h
  by_cases hp : ¬ (0 ≤ p ∧ p ≤ 1)
  · rw [if_pos hp] at h
    exact absurd h (by simp)
  rw [if_neg hp] at h
  simp only [show (("YES" : String) = "YES") = True from by simp, if_true] at h
  by_cases hthr : qAbs (p - e) < 0.05
  · rw [if_pos hthr] at h
    exact absurd h (by simp)
  rw [if_neg hthr] at h
  by_cases hband : e > 0.90 ∨ e < 0.10
  · rw [if_pos hband] at h
    exact absurd h (by simp)
  rw [if_neg hband] at h
  push_neg at hband
  obtain ⟨hb1, hb2⟩ := hband
  norm_num at hb1 hb2
  simp only [Except.ok.injEq, Option.some.injEq] at h
  subst h
  have hrch := of_decide_eq_true hr
  have h1 := hrch.1
  have hround := pyRound4_ge (e + e * (qAbs (p - e) * 0.5 / e))
  norm_num at h1
  refine ⟨hb2, hb1, ?_⟩
  show 0 ≤ pyRound4 (e + e * (qAbs (p - e) * 0.5 / e))
  linarith

theorem tp_no_facts (e p : ℚ) (lvl : TakeProfitLevel)
    (h : calculate_take_profit e p "NO" 0.5 0.05 0.01 0.99 = .ok (some lvl))
    (hr : lvl.is_reachable = true) :
    1/10 ≤ e ∧ e ≤ 9/10 ∧ 1 - lvl.target_price ≤ 2 * (1 - e) := by
  simp only [calculate_take_profit] at h
  rw [if_neg (by simp)] at h
  by_cases he : ¬ (0 ≤ e ∧ e ≤ 1)
  · rw [if_pos he] at h
    exact absurd h (by simp)
  rw [if_neg he] at h
  by_cases hp : ¬ (0 ≤ p ∧ p ≤ 1)
  · rw [if_pos hp] at h
    exact absurd h (by simp)
  rw [if_neg hp] at h
  simp only [string_no_ne_yes, if_false] at h
  by_cases hthr : qAbs (1 - p - (1 - e)) < 0.05
  · rw [if_pos hthr] at h
    exact absurd h (by simp)
  rw [if_neg hthr] at h
  by_cases hband : e > 0.90 ∨ e < 0.10
  · rw [if_pos hband] at h
    exact absurd h (by simp)
  rw [if_neg hband] at h
  push_neg at hband
  obtain ⟨hb1, hb2⟩ := hband
  norm_num at hb1 hb2
  simp only [Except.ok.injEq, Option.some.injEq] at h
  subst h
  have hrch := of_decide_eq_true hr
  have h1 := hrch.1
  norm_num at h1
  have hround := pyRound4_ge
    (1 - (1 - e - (1 - e) * (qAbs (1 - p - (1 - e)) * 0.5 / (1 - e))))
  have htp : 0 ≤ (1 - e) * (qAbs (1 - p - (1 - e)) * 0.5 / (1 - e)) := by
    apply mul_nonneg (by linarith)
    apply div_nonneg _ (by linarith)
    exact mul_nonneg (qAbs_nonneg _) (by norm_num)
  refine ⟨hb2, hb1, ?_⟩
  show 1 - pyRound4
      (1 - (1 - e - (1 - e) * (qAbs (1 - p - (1 - e)) * 0.5 / (1 - e)))) ≤
    2 * (1 - e)
  linarith

theorem kelly_side_cases (P : AdaptiveKellyParams) (dk bk mp ep c ce d : ℚ) :
    (calculate_position_size P dk bk mp ep c ce d).side = "YES" ∨
      (calculate_position_size P dk bk mp ep c ce d).side = "NO" := by
  by_cases hk : ep > mp
  · left
    show (if ep > mp then "YES" else "NO") = "YES"
    rw [if_pos hk]
  · right
    show (if ep > mp then "YES" else "NO") = "NO"
    rw [if_neg hk]

theorem enterPosition_inv {σ : Type} (B : ℚ) (st : SimState σ)
    (slug side : String) (e prob size : ℚ) (xd : DataPoint) (o : ℚ)
    (rest : List DataPoint) (utp : Bool) (hinv : SimInv B st)
    (hside : side = "YES" ∨ side = "NO") (he0 : 0 ≤ e) (he1 : e ≤ 1)
    (ho : o = 0 ∨ o = 1) (h0 : 0 ≤ size) (hs : size ≤ st.available) :
    SimInv B (enterPosition st slug side e prob size xd o rest utp) := by
  have hbase : SimInv B (baselineOpen st slug side e size xd o) :=
    baselineOpen_inv B st slug side e size xd o hinv he0 he1 ho h0 hs
  rcases hside with rfl | rfl
  · unfold enterPosition
    split
    · split
      · exact hinv
      · exact hbase
      · rename_i tp_level htpeq
        split
        · rename_i hreach
          split
          · rename_i hit_data hfind
            have hf := tp_yes_facts e prob tp_level htpeq hreach
            exact tpHitOpen_inv B st slug "YES" e size tp_level hit_data
              hinv h0 hs hf.1 hf.2.1 (fun _ => hf.2.2) (fun hc => absurd rfl hc)
          · exact hbase
        · exact hbase
    · exact hbase
  · unfold enterPosition
    split
    · split
      · exact hinv
      · exact hbase
      · rename_i tp_level htpeq
        split
        · rename_i hreach
          split
          · rename_i hit_data hfind
            have hf := tp_no_facts e prob tp_level htpeq hreach
            exact tpHitOpen_inv B st slug "NO" e size tp_level hit_data
              hinv h0 hs hf.1 hf.2.1 (fun hc => absurd hc (by simp))
              (fun _ => hf.2.2)
          · exact hbase
        · exact hbase
    · exact hbase

theorem simStep_inv {σ : Type} (B : ℚ) (O : EstOracle σ) (me : ℚ) (tp : Bool)
    (ev : EntryEvent) (st : SimState σ) (hev : EventDataOk ev)
    (hinv : SimInv B st) : SimInv B (simStep O me tp st ev) := by
  simp only [simStep]
  split
  · exact hinv
  · rename_i entry_data restData heq
    have hinv1 : SimInv B (settle entry_data.timestamp st) :=
      settle_inv B entry_data.timestamp st hinv
    split
    · exact hinv1
    · rename_i hav
      split
      · exact hinv1
      · rename_i actual_outcome houtcome
        split
        · exact hinv1
        · rename_i hedge
          split
          · exact hinv1
          · rename_i hgate
            push_neg at hgate
            have hmemE : entry_data ∈ ev.market_data := by
              rw [heq]
              exact List.mem_cons_self _ _
            have hmemX : ev.market_data.getLastD entry_data ∈ ev.market_data := by
              rw [heq]
              rcases List.mem_cons.mp
                  (List.getLastD_mem_cons (entry_data :: restData) entry_data)
                with h' | h'
              · rw [h']
                exact List.mem_cons_self _ _
              · exact h'
            have hE := hev entry_data hmemE
            have hX := hev _ hmemX
            have ho : actual_outcome = 0 ∨ actual_outcome = 1 :=
              hX.2 actual_outcome houtcome
            refine enterPosition_inv B _ _ _ _ _ _ _ _ _ _ hinv1
              (kelly_side_cases _ _ _ _ _ _ _ _) hE.1.1 hE.1.2 ho
              (le_min hgate.1.le hinv1.1.2) (min_le_right _ _)

theorem runEvents_inv {σ : Type} (B : ℚ) (O : EstOracle σ) (me : ℚ)
    (tp : Bool) :
    ∀ (events : List EntryEvent) (st : SimState σ),
      (∀ ev ∈ events, EventDataOk ev) → SimInv B st →
      SimInv B (runEvents O me tp st events) := by
  intro events
  induction events with
  | nil =>
    intro st _ h
    exact h
  | cons ev rest ih =>
    intro st hok h
    exact ih _ (fun e he => hok e (List.mem_cons_of_mem _ he))
      (simStep_inv B O me tp ev st (hok ev (List.mem_cons_self _ _)) h)

/-- C1: in every run of `simulate_capital_recycling`, after every prefix of
the entry events (and after the final settlement of the remaining heap) the
available capital equals the fixed initial bankroll minus the sizes of all
currently pending positions plus the realized P&L of all settled positions,
and it is never negative.  Hypotheses: a non-negative bankroll, and data
whose prices lie in `[0, 1]` with binary recorded outcomes.  The estimator
oracle is arbitrary — no assumption on its probabilities or confidences is
needed. -/
theorem simulate_capital_ledger_invariant {σ : Type} (O : EstOracle σ)
    (s0 : σ) (events : List EntryEvent) (initial_bankroll min_edge : ℚ)
    (use_take_profit : Bool) (hb : 0 ≤ initial_bankroll)
    (hdata : ∀ ev ∈ events, EventDataOk ev) :
    (∀ k, LedgerOk initial_bankroll
      (runEvents O min_edge use_take_profit
        (initSimState s0 initial_bankroll) (events.take k))) ∧
    LedgerOk initial_bankroll
      (simulate_capital_recycling O s0 events initial_bankroll min_edge
        use_take_profit).1 := by
  have hinit : SimInv initial_bankroll (initSimState s0 initial_bankroll) := by
    refine ⟨⟨?_, hb⟩, ?_⟩
    · show initial_bankroll = initial_bankroll - committed [] + 0
      simp [committed]
    · intro x hx
      exact absurd hx (List.not_mem_nil x)
  constructor
  · intro k
    exact (runEvents_inv initial_bankroll O min_edge use_take_profit
      (events.take k) _ (fun e he => hdata e (List.take_subset k events he))
      hinit).1
  · exact (finalSettle_inv initial_bankroll _
      (runEvents_inv initial_bankroll O min_edge use_take_profit events _
        hdata hinit)).1

/-- C1 witness: the ledger invariant on a concrete one-event run with the
demo oracle, a 1000 bankroll and take-profit enabled. -/
theorem simulate_capital_ledger_invariant_witness :
    LedgerOk 1000
      ((simulate_capital_recycling demoOracle () [demoEvent] 1000 0.05
        true).1) :=
  (simulate_capital_ledger_invariant demoOracle () [demoEvent] 1000 0.05 true
    (by norm_num)
    (by
      intro ev hev
      rw [List.mem_singleton] at hev
      subst hev
      intro d hd
      rcases List.mem_cons.mp hd with rfl | hd'
      · exact ⟨⟨by norm_num, by norm_num⟩, fun o ho => absurd ho (by simp)⟩
      · rcases List.mem_cons.mp hd' with rfl | hd''
        · exact ⟨⟨by norm_num, by norm_num⟩,
            fun o ho => Or.inr (Option.some.inj ho).symm⟩
        · exact absurd hd'' (List.not_mem_nil _))).2
